import Mathlib

/-!
Verification of the LSP client core and analyzer facade of mcp-rust-analyzer.

The embedding works at the byte level: the wire is a `List Nat` of bytes
(each < 256 on real inputs), matching the fact that the Rust code frames
messages as raw bytes (`write_all(header.as_bytes())`, `read_exact`,
`serde_json::from_slice`).  JSON values (`serde_json::Value`) are modelled
by `Mcp.Jval`, with numbers restricted to integers (the repository's
protocol traffic never relies on float payloads; floating point is outside
the embedding) and strings carried as their UTF-8 byte sequences.

Modelled from the spec: the serializer/parser pair mirrors the behaviour of
the `serde_json` dependency (compact serialization; recursive-descent
parsing with whitespace skipping and string escapes), which is not part of
`src/`; the spec describes the body as "the compact UTF-8 serialization"
parsed back with a JSON parser.  The library's internal recursion limit is
not modelled.
-/

namespace Mcp

/-- Model of `serde_json::Value` with integer numbers; strings are UTF-8 byte
lists and objects are field lists in serialization order. -/
inductive Jval where
  | jnull
  | jbool (b : Bool)
  | jnum (n : Int)
  | jstr (s : List Nat)
  | jarr (items : List Jval)
  | jobj (fields : List (List Nat × Jval))

/-- The UTF-8 bytes of an ASCII string literal (every character of the
strings used by the source is ASCII, so `Char.toNat` is the byte). -/
def strB (s : String) : List Nat := s.toList.map Char.toNat

/-- Decimal digit bytes of `n`, most significant first (what `itoa` /
`format!` emit for an unsigned integer). -/
def natDigits (n : Nat) : List Nat :=
  if n < 10 then [48 + n] else natDigits (n / 10) ++ [48 + n % 10]
termination_by n
decreasing_by omega

/-- Decimal bytes of a signed integer: optional minus sign, then digits. -/
def intBytes (i : Int) : List Nat :=
  if i < 0 then 45 :: natDigits i.natAbs else natDigits i.toNat

/-- Lowercase hex digit byte for `n < 16` (serde_json uses lowercase). -/
def hexDigitB (n : Nat) : Nat := if n < 10 then 48 + n else 87 + n

/-- serde_json's escaping of one string byte: `"` and `\` get a backslash,
the control bytes BS HT LF FF CR get short escapes, other control bytes get
`\u00xx`, and everything else (including UTF-8 continuation bytes) passes
through unchanged. -/
def escByte (b : Nat) : List Nat :=
  if b = 34 then [92, 34]
  else if b = 92 then [92, 92]
  else if b = 8 then [92, 98]
  else if b = 9 then [92, 116]
  else if b = 10 then [92, 110]
  else if b = 12 then [92, 102]
  else if b = 13 then [92, 114]
  else if b < 32 then [92, 117, 48, 48, hexDigitB (b / 16), hexDigitB (b % 16)]
  else [b]

/-- The escaped body of a JSON string literal. -/
def escBody (s : List Nat) : List Nat := s.flatMap escByte

/-- A full JSON string literal: quote, escaped body, quote. -/
def strLit (s : List Nat) : List Nat := 34 :: (escBody s ++ [34])

mutual

/-- Compact serialization of a value, as `serde_json::to_string` produces
it: no whitespace, `,` and `:` separators. -/
def serVal : Jval → List Nat
  | .jnull => [110, 117, 108, 108]
  | .jbool true => [116, 114, 117, 101]
  | .jbool false => [102, 97, 108, 115, 101]
  | .jnum i => intBytes i
  | .jstr s => strLit s
  | .jarr items => 91 :: (serItems items ++ [93])
  | .jobj fields => 123 :: (serFields fields ++ [125])

/-- Array elements, comma separated (empty for `[]`). -/
def serItems : List Jval → List Nat
  | [] => []
  | v :: vs => serVal v ++ serItemsMore vs

/-- The tail of an element list: each element preceded by a comma. -/
def serItemsMore : List Jval → List Nat
  | [] => []
  | v :: vs => 44 :: (serVal v ++ serItemsMore vs)

/-- Object members, comma separated, each `"key":value`. -/
def serFields : List (List Nat × Jval) → List Nat
  | [] => []
  | (k, v) :: ms => strLit k ++ 58 :: (serVal v ++ serFieldsMore ms)

/-- The tail of a member list: each member preceded by a comma. -/
def serFieldsMore : List (List Nat × Jval) → List Nat
  | [] => []
  | (k, v) :: ms => 44 :: (strLit k ++ 58 :: (serVal v ++ serFieldsMore ms))

end

/-! ### The parser (model of `serde_json::from_slice`) -/

/-- JSON whitespace bytes: space, tab, line feed, carriage return. -/
def isWsB (b : Nat) : Bool := b = 32 || b = 9 || b = 10 || b = 13

/-- Skip leading JSON whitespace. -/
def dropWs : List Nat → List Nat
  | b :: bs => if isWsB b then dropWs bs else b :: bs
  | [] => []

/-- ASCII decimal digit test. -/
def isDigitB (b : Nat) : Bool := 48 ≤ b && b ≤ 57

/-- Split off the longest leading run of decimal digits. -/
def grabDigits : List Nat → List Nat × List Nat
  | b :: bs =>
    if isDigitB b then
      let p := grabDigits bs
      (b :: p.1, p.2)
    else ([], b :: bs)
  | [] => ([], [])

/-- The number denoted by a digit run. -/
def digitsVal (ds : List Nat) : Nat := ds.foldl (fun a d => a * 10 + (d - 48)) 0

/-- Value of one hex digit byte, either case. -/
def hexValB (b : Nat) : Option Nat :=
  if 48 ≤ b ∧ b ≤ 57 then some (b - 48)
  else if 97 ≤ b ∧ b ≤ 102 then some (b - 87)
  else if 65 ≤ b ∧ b ≤ 70 then some (b - 55)
  else none

/-- UTF-8 encoding of a code point (as the parser materializes `\uXXXX`). -/
def utf8Enc (n : Nat) : List Nat :=
  if n < 128 then [n]
  else if n < 2048 then [192 + n / 64, 128 + n % 64]
  else if n < 65536 then [224 + n / 4096, 128 + n / 64 % 64, 128 + n % 64]
  else [240 + n / 262144, 128 + n / 4096 % 64, 128 + n / 64 % 64, 128 + n % 64]

/-- The byte produced by a single-character escape, if the escape is legal. -/
def unescByte (b : Nat) : Option Nat :=
  if b = 34 then some 34
  else if b = 92 then some 92
  else if b = 47 then some 47
  else if b = 98 then some 8
  else if b = 102 then some 12
  else if b = 110 then some 10
  else if b = 114 then some 13
  else if b = 116 then some 9
  else none

/-- Scan a string body after the opening quote: unescape up to the closing
quote, returning the decoded bytes and the remainder of the input.
(Surrogate-pair recombination for `\uXXXX` is not modelled; the serializer
only ever emits `\u00xx`.) -/
def scanStr : List Nat → Option (List Nat × List Nat)
  | [] => none
  | b :: bs =>
    if b = 34 then some ([], bs)
    else if b = 92 then
      match bs with
      | [] => none
      | e :: bs2 =>
        if e = 117 then
          match bs2 with
          | h1 :: h2 :: h3 :: h4 :: bs3 =>
            match hexValB h1, hexValB h2, hexValB h3, hexValB h4 with
            | some v1, some v2, some v3, some v4 =>
              match scanStr bs3 with
              | some (s, r) => some (utf8Enc (((v1 * 16 + v2) * 16 + v3) * 16 + v4) ++ s, r)
              | none => none
            | _, _, _, _ => none
          | _ => none
        else
          match unescByte e with
          | some ub =>
            match scanStr bs2 with
            | some (s, r) => some (ub :: s, r)
            | none => none
          | none => none
    else
      match scanStr bs with
      | some (s, r) => some (b :: s, r)
      | none => none

/-- Check a literal byte run (the tail of `null` / `true` / `false`). -/
def expectBytes : List Nat → List Nat → Option (List Nat)
  | [], bs => some bs
  | e :: es, b :: bs => if b = e then expectBytes es bs else none
  | _ :: _, [] => none

mutual

/-- Parse one JSON value (integers only), fuel-bounded for totality.
Dispatches on the first non-whitespace byte the way serde_json's
recursive-descent parser does. -/
def parseVal : Nat → List Nat → Option (Jval × List Nat)
  | 0, _ => none
  | fuel + 1, bs =>
    match dropWs bs with
    | [] => none
    | b :: r =>
      if b = 110 then
        match expectBytes [117, 108, 108] r with
        | some r2 => some (.jnull, r2)
        | none => none
      else if b = 116 then
        match expectBytes [114, 117, 101] r with
        | some r2 => some (.jbool true, r2)
        | none => none
      else if b = 102 then
        match expectBytes [97, 108, 115, 101] r with
        | some r2 => some (.jbool false, r2)
        | none => none
      else if b = 34 then
        match scanStr r with
        | some (s, r2) => some (.jstr s, r2)
        | none => none
      else if b = 91 then
        match dropWs r with
        | [] => none
        | b2 :: r2 =>
          if b2 = 93 then some (.jarr [], r2)
          else
            match parseItems fuel (b2 :: r2) with
            | some (vs, r3) => some (.jarr vs, r3)
            | none => none
      else if b = 123 then
        match dropWs r with
        | [] => none
        | b2 :: r2 =>
          if b2 = 125 then some (.jobj [], r2)
          else
            match parseFields fuel (b2 :: r2) with
            | some (ms, r3) => some (.jobj ms, r3)
            | none => none
      else if b = 45 then
        match grabDigits r with
        | ([], _) => none
        | (d :: ds, r2) => some (.jnum (-(digitsVal (d :: ds) : Int)), r2)
      else if isDigitB b then
        let p := grabDigits (b :: r)
        some (.jnum (digitsVal p.1 : Int), p.2)
      else none

/-- Parse one-or-more comma-separated array elements up to `]`. -/
def parseItems : Nat → List Nat → Option (List Jval × List Nat)
  | 0, _ => none
  | fuel + 1, bs =>
    match parseVal fuel bs with
    | none => none
    | some (v, r) =>
      match dropWs r with
      | 44 :: r2 =>
        match parseItems fuel r2 with
        | some (vs, r3) => some (v :: vs, r3)
        | none => none
      | 93 :: r2 => some ([v], r2)
      | _ => none

/-- Parse one-or-more comma-separated object members up to `}`. -/
def parseFields : Nat → List Nat → Option (List (List Nat × Jval) × List Nat)
  | 0, _ => none
  | fuel + 1, bs =>
    match dropWs bs with
    | 34 :: r =>
      match scanStr r with
      | none => none
      | some (k, r1) =>
        match dropWs r1 with
        | 58 :: r2 =>
          match parseVal fuel r2 with
          | none => none
          | some (v, r3) =>
            match dropWs r3 with
            | 44 :: r4 =>
              match parseFields fuel r4 with
              | some (ms, r5) => some ((k, v) :: ms, r5)
              | none => none
            | 125 :: r4 => some ([(k, v)], r4)
            | _ => none
        | _ => none
    | _ => none

end

/-- `serde_json::from_slice`: parse one value and require that only
whitespace remains. -/
def fromSlice (bs : List Nat) : Option Jval :=
  match parseVal (bs.length + 1) bs with
  | some (v, r) => if dropWs r = [] then some v else none
  | none => none

/-! ### The message framer (`LspClient::write_message` and the header
decoding loop of `LspClient::reader_task`) -/

/-- The bytes of the header key `Content-Length`. -/
def contentLengthKey : List Nat :=
  [67, 111, 110, 116, 101, 110, 116, 45, 76, 101, 110, 103, 116, 104]

theorem contentLengthKey_eq_strB : contentLengthKey = strB "Content-Length" := by decide

/-- `write_message`: the frame the client writes for one JSON value —
`Content-Length: {n}\r\n\r\n` followed by the compact serialization,
written under one stdin lock acquisition (header, body, flush). -/
def writeMessage (v : Jval) : List Nat :=
  contentLengthKey ++ [58, 32] ++ natDigits (serVal v).length ++ [13, 10, 13, 10] ++ serVal v

/-- `BufRead::read_line`: consume bytes up to and including the first
line feed (or the whole remainder if none occurs). -/
def takeLine : List Nat → List Nat × List Nat
  | [] => ([], [])
  | b :: bs =>
    if b = 10 then ([10], bs)
    else
      let p := takeLine bs
      (b :: p.1, p.2)

/-- Bytes trimmed by `str::trim` on the ASCII header lines: space and the
control range HT..CR. -/
def isTrimWs (b : Nat) : Bool := b = 32 || (9 ≤ b && b ≤ 13)

/-- `str::trim` on a header line (ASCII whitespace at both ends). -/
def trimB (l : List Nat) : List Nat :=
  ((l.dropWhile isTrimWs).reverse.dropWhile isTrimWs).reverse

/-- `str::split_once(": ")`: split at the first occurrence of colon-space. -/
def splitOnceSep : List Nat → Option (List Nat × List Nat)
  | [] => none
  | b :: rest =>
    if b = 58 then
      match rest with
      | 32 :: post => some ([], post)
      | _ =>
        match splitOnceSep rest with
        | some (pre, post) => some (b :: pre, post)
        | none => none
    else
      match splitOnceSep rest with
      | some (pre, post) => some (b :: pre, post)
      | none => none

/-- The header map (`HashMap<String, String>`): association list whose
`insert` replaces an existing key. -/
def hmInsert (m : List (List Nat × List Nat)) (k v : List Nat) : List (List Nat × List Nat) :=
  match m with
  | [] => [(k, v)]
  | (k0, v0) :: rest => if k0 = k then (k, v) :: rest else (k0, v0) :: hmInsert rest k v

/-- Header map lookup. -/
def hmGet (m : List (List Nat × List Nat)) (k : List Nat) : Option (List Nat) :=
  match m with
  | [] => none
  | (k0, v0) :: rest => if k0 = k then some v0 else hmGet rest k

theorem takeLine_rest_shorter : ∀ bs : List Nat, bs ≠ [] → (takeLine bs).2.length < bs.length := by
  intro bs h
  induction bs with
  | nil => exact absurd rfl h
  | cons b rest ih =>
    by_cases hb : b = 10
    · simp [takeLine, hb]
    · simp only [takeLine, if_neg hb, List.length_cons]
      rcases rest with _ | ⟨c, cs⟩
      · simp [takeLine]
      · exact Nat.lt_trans (ih (by simp)) (Nat.lt_succ_self _)

/-- The header phase of one `reader_task` iteration: read lines until a
line that is empty after trimming, collecting `key: value` pairs; `none`
models reaching end of stream first (the task returns, producing no frame). -/
def readHeaders (hs : List (List Nat × List Nat)) (bs : List Nat) :
    Option (List (List Nat × List Nat) × List Nat) :=
  match bs with
  | [] => none
  | b :: rest =>
    let p := takeLine (b :: rest)
    let t := trimB p.1
    if t = [] then some (hs, p.2)
    else
      match splitOnceSep t with
      | some (k, v) => readHeaders (hmInsert hs k v) p.2
      | none => readHeaders hs p.2
termination_by bs.length
decreasing_by
  all_goals exact takeLine_rest_shorter _ (by simp)

/-- `str::parse::<usize>` on a header value, restricted to the plain digit
form (the only form the encoder emits). -/
def parseUsize (bs : List Nat) : Option Nat :=
  match bs with
  | [] => none
  | _ => if bs.all (fun b => isDigitB b) then some (digitsVal bs) else none

/-- `read_exact`: take exactly `n` bytes, failing at end of stream. -/
def takeExact : Nat → List Nat → Option (List Nat × List Nat)
  | 0, bs => some ([], bs)
  | _ + 1, [] => none
  | n + 1, b :: bs =>
    match takeExact n bs with
    | some (xs, r) => some (b :: xs, r)
    | none => none

/-- One frame-decoding iteration of `reader_task`: header block, then
`Content-Length` bytes of body parsed as JSON.  `none` covers every path
on which the iteration produces no value (end of stream, missing or
unparseable length, short read, JSON error). -/
def readFrame (bs : List Nat) : Option (Jval × List Nat) :=
  match readHeaders [] bs with
  | none => none
  | some (hs, rest) =>
    match hmGet hs contentLengthKey with
    | none => none
    | some lenBytes =>
      match parseUsize lenBytes with
      | none => none
      | some n =>
        match takeExact n rest with
        | none => none
        | some (body, rest2) =>
          match fromSlice body with
          | some v => some (v, rest2)
          | none => none

/-! ### Value accessors used by the reader task and the facade
(`Value::get`, `as_u64`, `as_str`, `as_array`, `as_object`) -/

/-- First-match lookup in an object's member list. -/
def lookupField (ms : List (List Nat × Jval)) (k : List Nat) : Option Jval :=
  match ms with
  | [] => none
  | (k0, v) :: rest => if k0 = k then some v else lookupField rest k

/-- `Value::get` with a string key: member lookup on objects, `None` on
every other shape (including arrays, which would need an integer index). -/
def jget (v : Jval) (k : List Nat) : Option Jval :=
  match v with
  | .jobj ms => lookupField ms k
  | _ => none

/-- `Value::as_str`. -/
def asStr : Jval → Option (List Nat)
  | .jstr s => some s
  | _ => none

/-- `Value::as_u64`: numbers that fit in an unsigned 64-bit integer. -/
def asU64 : Jval → Option Nat
  | .jnum i => if 0 ≤ i ∧ i < 2 ^ 64 then some i.toNat else none
  | _ => none

/-- `Value::as_array`. -/
def asArray : Jval → Option (List Jval)
  | .jarr l => some l
  | _ => none

/-- `Value::as_object`. -/
def asObject : Jval → Option (List (List Nat × Jval))
  | .jobj ms => some ms
  | _ => none

/-! ### The response correlator (`ResponseMap = HashMap<u64, oneshot::Sender>`)

An entry maps a request id to a slot token standing for the oneshot
sender; a delivery event `(slot, outcome)` stands for `sender.send(outcome)`
reaching the receiver held by the awaiting caller. -/

/-- A request outcome as the reader delivers it: `Ok(result)` or the
error payload. -/
abbrev Outcome := Except Jval Jval

/-- Correlator map lookup (`HashMap::get`). -/
def mapLookup (m : List (Nat × Nat)) (k : Nat) : Option Nat :=
  match m with
  | [] => none
  | (k0, s) :: rest => if k0 = k then some s else mapLookup rest k

/-- Correlator registration (`map.insert(id, tx)` in `send_request`):
replace an existing entry or append a fresh one. -/
def registerSlot (m : List (Nat × Nat)) (k s : Nat) : List (Nat × Nat) :=
  match m with
  | [] => [(k, s)]
  | (k0, s0) :: rest => if k0 = k then (k, s) :: rest else (k0, s0) :: registerSlot rest k s

/-- `HashMap::remove` on the correlator map. -/
def removeSlot (m : List (Nat × Nat)) (k : Nat) : List (Nat × Nat) :=
  match m with
  | [] => []
  | (k0, s0) :: rest => if k0 = k then rest else (k0, s0) :: removeSlot rest k

/-- Resolution (`if let Some(sender) = map.remove(&id) { sender.send(..) }`):
remove the slot and deliver the outcome to it if it was present. -/
def resolveSlot (m : List (Nat × Nat)) (k : Nat) (o : Outcome) :
    List (Nat × Nat) × Option (Nat × Outcome) :=
  match mapLookup m k with
  | some s => (removeSlot m k, some (s, o))
  | none => (m, none)

/-- The message-dispatch step of `reader_task` (lines 224–235 of
`lsp_client.rs`) applied to one decoded JSON message: if the message has a
numeric `id`, the slot for that id is removed from the map, and an outcome
is sent on it only if the message also carries an `error` (checked first)
or a `result` member. -/
def dispatchMessage (j : Jval) (m : List (Nat × Nat)) :
    List (Nat × Nat) × Option (Nat × Outcome) :=
  match (jget j (strB "id")).bind asU64 with
  | none => (m, none)
  | some id =>
    match mapLookup m id with
    | none => (m, none)
    | some sender =>
      match jget j (strB "error") with
      | some e => (removeSlot m id, some (sender, .error e))
      | none =>
        match jget j (strB "result") with
        | some r => (removeSlot m id, some (sender, .ok r))
        | none => (removeSlot m id, none)

/-! ### The LSP client state (`LspClient` fields and `send_request`,
`initialize`, `start_server`)

Asynchronous waits are made explicit: `AwaitOutcome` is what the 30-second
`tokio::time::timeout(…, rx)` wait produces for the caller (value or error
delivered by the reader task, channel closed, or timer fired). -/

/-- Errors `send_request` / `write_message` / `initialize` can return
(`anyhow` errors in the source, distinguished here by their bail sites). -/
inductive LspError where
  | notInitialized
  | noStdin
  | channelClosed
  | timeout
  | lspErr (payload : Jval)

/-- What awaiting the oneshot receiver under the 30s timeout yields. -/
inductive AwaitOutcome where
  | delivered (o : Outcome)
  | closed
  | timedOut

/-- The mutable state of an `LspClient`: process handle presence, stdin
handle presence, the `initialized` flag, the atomic request-id counter
(wraparound of the 64-bit counter is unreachable and not modelled), the
correlator map, and the frames written to the child's stdin so far. -/
structure ClientState where
  processLive : Bool
  stdinOpen : Bool
  initialized : Bool
  nextId : Nat
  pending : List (Nat × Nat)
  written : List (List Nat)

/-- `LspClient::new`: no process, no stdin, not initialized, ids from 1,
empty correlator. -/
def newClient : ClientState :=
  { processLive := false, stdinOpen := false, initialized := false,
    nextId := 1, pending := [], written := [] }

/-- The JSON-RPC request frame body built by `send_request`. -/
def mkRequest (id : Nat) (method : String) (params : Jval) : Jval :=
  .jobj [(strB "jsonrpc", .jstr (strB "2.0")), (strB "id", .jnum id),
         (strB "method", .jstr (strB method)), (strB "params", params)]

/-- The JSON-RPC notification body built by `send_notification` (no id). -/
def mkNotification (method : String) (params : Jval) : Jval :=
  .jobj [(strB "jsonrpc", .jstr (strB "2.0")),
         (strB "method", .jstr (strB method)), (strB "params", params)]

/-- `write_message`: with a stdin handle, append one whole frame (header
and body written under the stdin mutex); without one, fail. -/
def writeMessageSt (st : ClientState) (v : Jval) : Except LspError ClientState :=
  if st.stdinOpen then .ok { st with written := st.written ++ [writeMessage v] }
  else .error .noStdin

/-- `send_request` (lines 248–285): fail fast unless initialized or the
method is the handshake; otherwise allocate the next id, register a slot
(the slot token is the id, fresh per request), write the frame, then await.
On timeout the entry is removed from the correlator map before erroring.
(A delivered outcome means the reader task already removed the entry on
its side; that removal is `dispatchMessage`'s, not `send_request`'s.) -/
def sendRequest (st : ClientState) (method : String) (params : Jval)
    (await : AwaitOutcome) : Except LspError Jval × ClientState :=
  if st.initialized = false ∧ method ≠ "initialize" then (.error .notInitialized, st)
  else
    let id := st.nextId
    let st1 : ClientState :=
      { st with nextId := id + 1, pending := registerSlot st.pending id id }
    match writeMessageSt st1 (mkRequest id method params) with
    | .error e => (.error e, st1)
    | .ok st2 =>
      match await with
      | .delivered (.ok v) => (.ok v, st2)
      | .delivered (.error e) => (.error (.lspErr e), st2)
      | .closed => (.error .channelClosed, st2)
      | .timedOut => (.error .timeout, { st2 with pending := removeSlot st2.pending id })

/-- `start_server` on the successful spawn path: the child process is
live, its stdin handle is held, and the reader task is launched. -/
def startServer (st : ClientState) : ClientState :=
  { st with processLive := true, stdinOpen := true }

/-- `initialize` (lines 45–89): start the server, send the handshake
request (its params are built from the config; their content is irrelevant
here, so they are a parameter), and on success set `initialized` and send
the `initialized` notification.  The `?` on the request propagates a
failure with no teardown of the just-started process. -/
def initializeClient (st : ClientState) (initParams : Jval)
    (await : AwaitOutcome) : Except LspError Jval × ClientState :=
  let st1 := startServer st
  match sendRequest st1 "initialize" initParams await with
  | (.error e, st2) => (.error e, st2)
  | (.ok v, st2) =>
    let st3 : ClientState := { st2 with initialized := true }
    match writeMessageSt st3 (mkNotification "initialized" (.jobj [])) with
    | .error e => (.error e, st3)
    | .ok st4 => (.ok v, st4)

/-! ### The analyzer facade (`analyzer.rs`)

Each operation is modelled with the environment's contributions explicit:
`initOk` is whether `try_initialize_lsp` would return a working client, and
`callRes` is what the per-method LSP call returns (`Err` carries the
display of the `anyhow` error as bytes).  Each result triple is (new
facade state, whether an initialization attempt was made, the operation's
`Result` value). -/

/-- The facade state the claims depend on: the `USE_LSP` toggle and
whether `lsp_client` currently holds a client. -/
structure FacadeState where
  useLsp : Bool
  clientPresent : Bool
deriving DecidableEq

/-- The lazy-connect prologue of `hover` and `completions`: under the
toggle, if no client exists, install the outcome of `try_initialize_lsp`
(`None` on failure — the failed state is kept and no error escapes). -/
def lazyConnect (st : FacadeState) (initOk : Bool) : FacadeState × Bool :=
  if st.useLsp ∧ st.clientPresent = false then ({ st with clientPresent := initOk }, true)
  else (st, false)

/-- The editor-to-protocol position translation appearing in every
position-based facade operation: `line - 1` / `column - 1` on `u32`, a
checked subtraction that panics (here `none`) when the input is 0. -/
def lspPosition (line column : Nat) : Option (Nat × Nat) :=
  if 1 ≤ line ∧ 1 ≤ column then some (line - 1, column - 1) else none

/-- Text extracted from one entry of a hover `contents` array: a plain
string, or the `value` member of a marked-string object. -/
def hoverItemText (item : Jval) : Option (List Nat) :=
  match asStr item with
  | some s => some s
  | none =>
    match asObject item with
    | some obj =>
      match (lookupField obj (strB "value")).bind asStr with
      | some s => some s
      | none => none
    | none => none

/-- `"\n\n"` — the blank-line separator joining hover array entries. -/
def blankLine : List Nat := [10, 10]

/-- `List.intercalate` for the hover join. -/
def joinBlank (ss : List (List Nat)) : List Nat := List.intercalate blankLine ss

/-- The hover response normalization of `RustAnalyzer::hover` (lines
130–167): probe `contents` as marked string / markup object / plain string
/ array of marked strings, in the source's branch order.  Note the branch
structure: when `contents` is an object without a string `value`, the
`as_object` branch is taken and produces nothing, and the remaining
branches are skipped. -/
def hoverExtract (result : Jval) : Option (List Nat) :=
  match jget result (strB "contents") with
  | none => none
  | some contents =>
    match (jget contents (strB "value")).bind asStr with
    | some v => some v
    | none =>
      match asObject contents with
      | some markup =>
        match (lookupField markup (strB "value")).bind asStr with
        | some v => some v
        | none => none
      | none =>
        match asStr contents with
        | some v => some v
        | none =>
          match asArray contents with
          | some arr =>
            let combined := joinBlank (arr.filterMap hoverItemText)
            if combined = [] then none else some combined
          | none => none

/-- `RustAnalyzer::hover`: lazy connect, then the LSP call; a backend
error or an absent client degrade to `Ok(None)`. -/
def hoverOp (st : FacadeState) (initOk : Bool) (callRes : Except (List Nat) Jval) :
    FacadeState × Bool × Except (List Nat) (Option (List Nat)) :=
  let p := lazyConnect st initOk
  if p.1.clientPresent then
    match callRes with
    | .ok result => (p.1, p.2, .ok (hoverExtract result))
    | .error _ => (p.1, p.2, .ok none)
  else (p.1, p.2, .ok none)

/-- The completion-item reshaping of `RustAnalyzer::completions` (lines
228–247): fixed members with defaults, plus `insertText` / `sortText`
when present. -/
def transformItem (item : Jval) : Jval :=
  let base : List (List Nat × Jval) :=
    [(strB "label", .jstr (((jget item (strB "label")).bind asStr).getD [])),
     (strB "kind", .jnum (((jget item (strB "kind")).bind asU64).getD 1 : Nat)),
     (strB "detail", .jstr (((jget item (strB "detail")).bind asStr).getD [])),
     (strB "documentation", (jget item (strB "documentation")).getD .jnull)]
  let withIns :=
    match jget item (strB "insertText") with
    | some t => base ++ [(strB "insertText", t)]
    | none => base
  let withSort :=
    match jget item (strB "sortText") with
    | some t => withIns ++ [(strB "sortText", t)]
    | none => withIns
  .jobj withSort

/-- The items list of a completion response: an `items` member, a bare
array, or nothing. -/
def completionItems (result : Jval) : List Jval :=
  match (jget result (strB "items")).bind asArray with
  | some items => items
  | none =>
    match asArray result with
    | some items => items
    | none => []

/-- `RustAnalyzer::completions`: lazy connect, then the LSP call; errors
and an absent client degrade to `Ok(vec![])`. -/
def completionsOp (st : FacadeState) (initOk : Bool) (callRes : Except (List Nat) Jval) :
    FacadeState × Bool × Except (List Nat) (List Jval) :=
  let p := lazyConnect st initOk
  if p.1.clientPresent then
    match callRes with
    | .ok result => (p.1, p.2, .ok ((completionItems result).map transformItem))
    | .error _ => (p.1, p.2, .ok [])
  else (p.1, p.2, .ok [])

/-- `RustAnalyzer::find_references`: no lazy connect — the client is used
only if already present; errors and absence degrade to `Ok(vec![])`. -/
def findReferencesOp (st : FacadeState) (callRes : Except (List Nat) Jval) :
    FacadeState × Bool × Except (List Nat) (List Jval) :=
  if st.clientPresent then
    match callRes with
    | .ok result => (st, false, .ok ((asArray result).getD []))
    | .error _ => (st, false, .ok [])
  else (st, false, .ok [])

/-- `RustAnalyzer::rename`: no lazy connect; a backend error becomes an
`Ok` error-payload object, an absent client a fixed one. -/
def renameOp (st : FacadeState) (callRes : Except (List Nat) Jval) :
    FacadeState × Bool × Except (List Nat) Jval :=
  if st.clientPresent then
    match callRes with
    | .ok result => (st, false, .ok result)
    | .error e =>
      (st, false, .ok (.jobj [(strB "error", .jstr (strB "Rename failed: " ++ e))]))
  else (st, false, .ok (.jobj [(strB "error", .jstr (strB "LSP not available"))]))

/-- `RustAnalyzer::signature_help`: no lazy connect; errors and absence
degrade to `Ok(json!({}))`. -/
def signatureHelpOp (st : FacadeState) (callRes : Except (List Nat) Jval) :
    FacadeState × Bool × Except (List Nat) Jval :=
  if st.clientPresent then
    match callRes with
    | .ok result => (st, false, .ok result)
    | .error _ => (st, false, .ok (.jobj []))
  else (st, false, .ok (.jobj []))

/-- `RustAnalyzer::find_implementations`: no lazy connect; errors and
absence degrade to `Ok(vec![])`. -/
def findImplementationsOp (st : FacadeState) (callRes : Except (List Nat) Jval) :
    FacadeState × Bool × Except (List Nat) (List Jval) :=
  if st.clientPresent then
    match callRes with
    | .ok result => (st, false, .ok ((asArray result).getD []))
    | .error _ => (st, false, .ok [])
  else (st, false, .ok [])

/-- A byte list that cannot extend a digit run: empty or headed by a
non-digit.  Every JSON delimiter following a serialized number (`,`, `]`,
`}`, end of body) qualifies. -/
def noDigitHead : List Nat → Bool
  | [] => true
  | b :: _ => !isDigitB b

/-! ## Lemmas: decimal digits -/

theorem natDigits_all_digits (n : Nat) : ∀ b ∈ natDigits n, isDigitB b = true := by
  induction n using Nat.strong_induction_on with
  | _ n ih =>
    rw [natDigits]
    by_cases h : n < 10
    · simp only [if_pos h, List.mem_singleton]
      rintro b rfl
      simp only [isDigitB, Bool.and_eq_true, decide_eq_true_eq]
      omega
    · simp only [if_neg h, List.mem_append, List.mem_singleton]
      rintro b (hb | rfl)
      · exact ih (n / 10) (by omega) b hb
      · simp only [isDigitB, Bool.and_eq_true, decide_eq_true_eq]
        have := Nat.mod_lt n (show 0 < 10 by omega)
        omega

theorem natDigits_ne_nil (n : Nat) : natDigits n ≠ [] := by
  rw [natDigits]
  by_cases h : n < 10 <;> simp [h]

theorem digitsVal_natDigits (n : Nat) : digitsVal (natDigits n) = n := by
  induction n using Nat.strong_induction_on with
  | _ n ih =>
    rw [natDigits]
    by_cases h : n < 10
    · simp only [if_pos h, digitsVal, List.foldl_cons, List.foldl_nil]
      omega
    · simp only [if_neg h, digitsVal, List.foldl_append, List.foldl_cons, List.foldl_nil]
      have hrec := ih (n / 10) (by omega)
      simp only [digitsVal] at hrec
      rw [hrec]
      omega

theorem parseUsize_natDigits (n : Nat) : parseUsize (natDigits n) = some n := by
  rcases h : natDigits n with _ | ⟨d, ds⟩
  · exact absurd h (natDigits_ne_nil n)
  · have hall : (natDigits n).all (fun b => isDigitB b) = true :=
      List.all_eq_true.mpr (natDigits_all_digits n)
    rw [h] at hall
    simp only [parseUsize, hall, if_pos]
    rw [← h, digitsVal_natDigits]

theorem grabDigits_stop (bs : List Nat) (h : noDigitHead bs = true) :
    grabDigits bs = ([], bs) := by
  match bs with
  | [] => rfl
  | b :: t =>
    simp only [noDigitHead, Bool.not_eq_true'] at h
    simp [grabDigits, h]

theorem grabDigits_run (ds : List Nat) (hds : ∀ b ∈ ds, isDigitB b = true)
    (rest : List Nat) (hrest : noDigitHead rest = true) :
    grabDigits (ds ++ rest) = (ds, rest) := by
  induction ds with
  | nil => simpa using grabDigits_stop rest hrest
  | cons d t ih =>
    have hd : isDigitB d = true := hds d (by simp)
    have ht := ih (fun b hb => hds b (by simp [hb]))
    simp [grabDigits, hd, ht]

theorem natDigits_cons (n : Nat) : ∃ d t, natDigits n = d :: t ∧ isDigitB d = true := by
  rcases h : natDigits n with _ | ⟨d, t⟩
  · exact absurd h (natDigits_ne_nil n)
  · exact ⟨d, t, rfl, natDigits_all_digits n d (h ▸ List.mem_cons_self ..)⟩

/-! ## Lemmas: string escaping round trip -/

theorem hexValB_hexDigitB (d : Nat) (h : d < 16) : hexValB (hexDigitB d) = some d := by
  by_cases hd : d < 10
  · simp only [hexDigitB, if_pos hd, hexValB,
      if_pos (show 48 ≤ 48 + d ∧ 48 + d ≤ 57 by omega), Option.some.injEq]
    omega
  · simp only [hexDigitB, if_neg hd, hexValB,
      if_neg (show ¬(48 ≤ 87 + d ∧ 87 + d ≤ 57) by omega),
      if_pos (show 97 ≤ 87 + d ∧ 87 + d ≤ 102 by omega), Option.some.injEq]
    omega

theorem scanStr_escBody (s : List Nat) : ∀ rest : List Nat,
    scanStr (escBody s ++ 34 :: rest) = some (s, rest) := by
  induction s with
  | nil =>
    intro rest
    unfold escBody scanStr
    simp
  | cons b s ih =>
    intro rest
    have harg : escBody (b :: s) ++ 34 :: rest = escByte b ++ (escBody s ++ 34 :: rest) := by
      simp [escBody]
    rw [harg]
    by_cases h34 : b = 34
    · subst h34
      unfold escByte scanStr
      simp [unescByte, ih]
    · by_cases h92 : b = 92
      · subst h92
        unfold escByte scanStr
        simp [unescByte, ih]
      · by_cases h8 : b = 8
        · subst h8
          unfold escByte scanStr
          simp [unescByte, ih]
        · by_cases h9 : b = 9
          · subst h9
            unfold escByte scanStr
            simp [unescByte, ih]
          · by_cases h10 : b = 10
            · subst h10
              unfold escByte scanStr
              simp [unescByte, ih]
            · by_cases h12 : b = 12
              · subst h12
                unfold escByte scanStr
                simp [unescByte, ih]
              · by_cases h13 : b = 13
                · subst h13
                  unfold escByte scanStr
                  simp [unescByte, ih]
                · by_cases hctl : b < 32
                  · have he : escByte b
                        = [92, 117, 48, 48, hexDigitB (b / 16), hexDigitB (b % 16)] := by
                      simp [escByte, h34, h92, h8, h9, h10, h12, h13, hctl]
                    rw [he]
                    unfold scanStr
                    simp only [List.cons_append, List.nil_append]
                    rw [show hexValB 48 = some 0 from by simp [hexValB]]
                    rw [hexValB_hexDigitB (b / 16) (by omega),
                        hexValB_hexDigitB (b % 16) (by omega)]
                    simp only [ih rest]
                    have henc : utf8Enc b = [b] := by
                      unfold utf8Enc
                      rw [if_pos (by omega)]
                    have hb2 : ((0 * 16 + 0) * 16 + b / 16) * 16 + b % 16 = b := by omega
                    have hb3 : b / 16 * 16 + b % 16 = b := by omega
                    simp [hb2, hb3, henc]
                  · have he : escByte b = [b] := by
                      simp [escByte, h34, h92, h8, h9, h10, h12, h13, hctl]
                    rw [he]
                    unfold scanStr
                    simp only [List.cons_append, List.nil_append, if_neg h34, if_neg h92]
                    simp [ih rest]

/-! ## Lemmas: serialized values and whitespace -/

theorem dropWs_cons_nonws (b : Nat) (bs : List Nat) (h : isWsB b = false) :
    dropWs (b :: bs) = b :: bs := by
  simp [dropWs, h]

theorem serVal_head (v : Jval) :
    ∃ b t, serVal v = b :: t ∧ isWsB b = false ∧ b ≠ 93 ∧ b ≠ 44 ∧ b ≠ 125 := by
  cases v with
  | jnull => exact ⟨110, _, rfl, by decide, by decide, by decide, by decide⟩
  | jbool b =>
    cases b with
    | true => exact ⟨116, _, rfl, by decide, by decide, by decide, by decide⟩
    | false => exact ⟨102, _, rfl, by decide, by decide, by decide, by decide⟩
  | jstr s => exact ⟨34, _, rfl, by decide, by decide, by decide, by decide⟩
  | jarr items => exact ⟨91, _, rfl, by decide, by decide, by decide, by decide⟩
  | jobj fields => exact ⟨123, _, rfl, by decide, by decide, by decide, by decide⟩
  | jnum i =>
    by_cases hneg : i < 0
    · refine ⟨45, natDigits i.natAbs, ?_, by decide, by decide, by decide, by decide⟩
      simp [serVal, intBytes, hneg]
    · obtain ⟨d, t, hd, hdig⟩ := natDigits_cons i.toNat
      simp only [isDigitB, Bool.and_eq_true, decide_eq_true_eq] at hdig
      refine ⟨d, t, ?_, ?_, by omega, by omega, by omega⟩
      · simp [serVal, intBytes, hneg, hd]
      · simp only [isWsB, Bool.or_eq_false_iff, decide_eq_false_iff_not]
        omega

theorem dropWs_serVal (v : Jval) (rest : List Nat) :
    dropWs (serVal v ++ rest) = serVal v ++ rest := by
  obtain ⟨b, t, hv, hws, -, -, -⟩ := serVal_head v
  rw [hv, List.cons_append, dropWs_cons_nonws _ _ hws]

theorem serVal_length_pos (v : Jval) : 1 ≤ (serVal v).length := by
  obtain ⟨b, t, hv, -, -, -, -⟩ := serVal_head v
  simp [hv]

/-! ## Lemmas: parsing serialized numbers -/

theorem parseVal_intBytes (i : Int) (fuel : Nat) (rest : List Nat)
    (hrest : noDigitHead rest = true) :
    parseVal (fuel + 1) (intBytes i ++ rest) = some (.jnum i, rest) := by
  by_cases hneg : i < 0
  · obtain ⟨d, t, hd, hdig⟩ := natDigits_cons i.natAbs
    have harg : intBytes i ++ rest = 45 :: (natDigits i.natAbs ++ rest) := by
      simp [intBytes, hneg]
    rw [harg]
    unfold parseVal
    rw [dropWs_cons_nonws 45 _ (by decide)]
    have hgrab : grabDigits (natDigits i.natAbs ++ rest)
        = (natDigits i.natAbs, rest) :=
      grabDigits_run _ (natDigits_all_digits _) rest hrest
    have hgrab2 : grabDigits (d :: (t ++ rest)) = (d :: t, rest) := by
      rw [← List.cons_append, ← hd]
      exact hgrab
    have hval : digitsVal (d :: t) = i.natAbs := by
      rw [← hd, digitsVal_natDigits]
    have hcast : -(i.natAbs : Int) = i := by omega
    simp [hgrab2, hd, hval, hcast]
    rw [abs_of_neg hneg, neg_neg]
  · obtain ⟨d, t, hd, hdig⟩ := natDigits_cons i.toNat
    simp only [isDigitB, Bool.and_eq_true, decide_eq_true_eq] at hdig
    have harg : intBytes i ++ rest = d :: (t ++ rest) := by
      simp [intBytes, hneg, hd]
    rw [harg]
    unfold parseVal
    rw [dropWs_cons_nonws d _
      (by simp only [isWsB, Bool.or_eq_false_iff, decide_eq_false_iff_not]; omega)]
    have hgrab : grabDigits (natDigits i.toNat ++ rest) = (natDigits i.toNat, rest) :=
      grabDigits_run _ (natDigits_all_digits _) rest hrest
    rw [hd] at hgrab
    simp only [List.cons_append] at hgrab
    have hval : digitsVal (d :: t) = i.toNat := by
      rw [← hd, digitsVal_natDigits]
    have hcast : (i.toNat : Int) = i := by omega
    simp only [if_neg (show ¬d = 110 by omega), if_neg (show ¬d = 116 by omega),
      if_neg (show ¬d = 102 by omega), if_neg (show ¬d = 34 by omega),
      if_neg (show ¬d = 91 by omega), if_neg (show ¬d = 123 by omega),
      if_neg (show ¬d = 45 by omega),
      if_pos (show isDigitB d = true by
        simp only [isDigitB, Bool.and_eq_true, decide_eq_true_eq]; omega)]
    simp [hgrab, hval, hcast]

/-! ## The serializer/parser round trip -/

theorem serItemsMore_cons (v : Jval) (vs : List Jval) :
    serItemsMore (v :: vs) = 44 :: serItems (v :: vs) := rfl

theorem serFieldsMore_cons (k : List Nat) (v : Jval) (ms : List (List Nat × Jval)) :
    serFieldsMore ((k, v) :: ms) = 44 :: serFields ((k, v) :: ms) := rfl

mutual

theorem rtVal : ∀ (v : Jval) (fuel : Nat) (rest : List Nat),
    (serVal v).length < fuel → noDigitHead rest = true →
    parseVal fuel (serVal v ++ rest) = some (v, rest)
  | .jnull, fuel, rest, hf, _ => by
    cases fuel with
    | zero => exact absurd hf (Nat.not_lt_zero _)
    | succ f =>
      unfold parseVal
      simp [serVal, dropWs, isWsB, expectBytes]
  | .jbool true, fuel, rest, hf, _ => by
    cases fuel with
    | zero => exact absurd hf (Nat.not_lt_zero _)
    | succ f =>
      unfold parseVal
      simp [serVal, dropWs, isWsB, expectBytes]
  | .jbool false, fuel, rest, hf, _ => by
    cases fuel with
    | zero => exact absurd hf (Nat.not_lt_zero _)
    | succ f =>
      unfold parseVal
      simp [serVal, dropWs, isWsB, expectBytes]
  | .jnum i, fuel, rest, hf, hr => by
    cases fuel with
    | zero => exact absurd hf (Nat.not_lt_zero _)
    | succ f => exact parseVal_intBytes i f rest hr
  | .jstr s, fuel, rest, hf, _ => by
    cases fuel with
    | zero => exact absurd hf (Nat.not_lt_zero _)
    | succ f =>
      have harg : serVal (.jstr s) ++ rest = 34 :: (escBody s ++ 34 :: rest) := by
        simp [serVal, strLit]
      rw [harg]
      unfold parseVal
      rw [dropWs_cons_nonws 34 _ (by decide)]
      simp [scanStr_escBody]
  | .jarr [], fuel, rest, hf, _ => by
    cases fuel with
    | zero => exact absurd hf (Nat.not_lt_zero _)
    | succ f =>
      have harg : serVal (.jarr []) ++ rest = 91 :: 93 :: rest := by
        simp [serVal, serItems]
      rw [harg]
      unfold parseVal
      simp [dropWs, isWsB]
  | .jarr (v :: vs), fuel, rest, hf, _ => by
    cases fuel with
    | zero => exact absurd hf (Nat.not_lt_zero _)
    | succ f =>
      obtain ⟨b, t, hbv, hws, hb93, hb44, hb125⟩ := serVal_head v
      have hfi : (serItems (v :: vs)).length + 1 < f := by
        simp [serVal, List.length_append] at hf
        omega
      have hitems : serItems (v :: vs) ++ 93 :: rest
          = b :: (t ++ (serItemsMore vs ++ 93 :: rest)) := by
        simp [serItems, hbv]
      have harg : serVal (.jarr (v :: vs)) ++ rest
          = 91 :: (serItems (v :: vs) ++ 93 :: rest) := by
        simp [serVal]
      have hdrop : dropWs (serItems (v :: vs) ++ 93 :: rest)
          = b :: (t ++ (serItemsMore vs ++ 93 :: rest)) := by
        rw [hitems]
        exact dropWs_cons_nonws b _ hws
      have hpi : parseItems f (b :: (t ++ (serItemsMore vs ++ 93 :: rest)))
          = some (v :: vs, rest) := by
        rw [← hitems]
        exact rtItems v vs f rest hfi
      rw [harg]
      unfold parseVal
      rw [dropWs_cons_nonws 91 _ (by decide)]
      simp [hdrop, hb93, hpi]
  | .jobj [], fuel, rest, hf, _ => by
    cases fuel with
    | zero => exact absurd hf (Nat.not_lt_zero _)
    | succ f =>
      have harg : serVal (.jobj []) ++ rest = 123 :: 125 :: rest := by
        simp [serVal, serFields]
      rw [harg]
      unfold parseVal
      simp [dropWs, isWsB]
  | .jobj ((k, v) :: ms), fuel, rest, hf, _ => by
    cases fuel with
    | zero => exact absurd hf (Nat.not_lt_zero _)
    | succ f =>
      have hff : (serFields ((k, v) :: ms)).length + 1 < f := by
        simp [serVal, List.length_append] at hf
        omega
      have hfields : serFields ((k, v) :: ms) ++ 125 :: rest
          = 34 :: (escBody k ++ 34 :: (58 :: (serVal v ++ (serFieldsMore ms ++ 125 :: rest)))) := by
        simp [serFields, strLit]
      have harg : serVal (.jobj ((k, v) :: ms)) ++ rest
          = 123 :: (serFields ((k, v) :: ms) ++ 125 :: rest) := by
        simp [serVal]
      have hdrop : dropWs (serFields ((k, v) :: ms) ++ 125 :: rest)
          = 34 :: (escBody k ++ 34 :: (58 :: (serVal v ++ (serFieldsMore ms ++ 125 :: rest)))) := by
        rw [hfields]
        exact dropWs_cons_nonws 34 _ (by decide)
      have hpf : parseFields f (34 :: (escBody k ++ 34 ::
          (58 :: (serVal v ++ (serFieldsMore ms ++ 125 :: rest))))) = some ((k, v) :: ms, rest) := by
        rw [← hfields]
        exact rtFields k v ms f rest hff
      rw [harg]
      unfold parseVal
      rw [dropWs_cons_nonws 123 _ (by decide)]
      simp [hdrop, hpf]
termination_by v fuel rest hf hr => sizeOf v

theorem rtItems : ∀ (v : Jval) (vs : List Jval) (fuel : Nat) (rest : List Nat),
    (serItems (v :: vs)).length + 1 < fuel →
    parseItems fuel (serItems (v :: vs) ++ 93 :: rest) = some (v :: vs, rest)
  | v, [], fuel, rest, hf => by
    cases fuel with
    | zero => exact absurd hf (Nat.not_lt_zero _)
    | succ f =>
      have hfv : (serVal v).length < f := by
        simp [serItems, serItemsMore, List.length_append] at hf
        omega
      have harg : serItems [v] ++ 93 :: rest = serVal v ++ 93 :: rest := by
        simp [serItems, serItemsMore]
      rw [harg]
      unfold parseItems
      rw [rtVal v f (93 :: rest) hfv (by simp [noDigitHead, isDigitB])]
      simp [dropWs, isWsB]
  | v, x :: xs, fuel, rest, hf => by
    cases fuel with
    | zero => exact absurd hf (Nat.not_lt_zero _)
    | succ f =>
      have hsi : serItems (v :: x :: xs) = serVal v ++ (44 :: serItems (x :: xs)) := by
        simp [serItems, serItemsMore_cons]
      rw [hsi, List.length_append] at hf
      have hvpos := serVal_length_pos v
      have hfv : (serVal v).length < f := by simp at hf; omega
      have hfx : (serItems (x :: xs)).length + 1 < f := by simp at hf; omega
      have harg : (serVal v ++ (44 :: serItems (x :: xs))) ++ 93 :: rest
          = serVal v ++ (44 :: (serItems (x :: xs) ++ 93 :: rest)) := by
        simp
      rw [hsi, harg]
      unfold parseItems
      rw [rtVal v f _ hfv (by simp [noDigitHead, isDigitB])]
      simp [dropWs, isWsB, rtItems x xs f rest hfx]
termination_by v vs fuel rest hf => 1 + sizeOf v + sizeOf vs

theorem rtFields : ∀ (k : List Nat) (v : Jval) (ms : List (List Nat × Jval))
    (fuel : Nat) (rest : List Nat),
    (serFields ((k, v) :: ms)).length + 1 < fuel →
    parseFields fuel (serFields ((k, v) :: ms) ++ 125 :: rest) = some ((k, v) :: ms, rest)
  | k, v, [], fuel, rest, hf => by
    cases fuel with
    | zero => exact absurd hf (Nat.not_lt_zero _)
    | succ f =>
      have hfv : (serVal v).length < f := by
        simp [serFields, serFieldsMore, strLit, List.length_append] at hf
        omega
      have harg : serFields [(k, v)] ++ 125 :: rest
          = 34 :: (escBody k ++ 34 :: (58 :: (serVal v ++ 125 :: rest))) := by
        simp [serFields, serFieldsMore, strLit]
      rw [harg]
      unfold parseFields
      rw [dropWs_cons_nonws 34 _ (by decide)]
      simp only [scanStr_escBody]
      rw [dropWs_cons_nonws 58 _ (by decide)]
      simp [dropWs, isWsB, rtVal v f (125 :: rest) hfv (by simp [noDigitHead, isDigitB])]
  | k, v, (k2, v2) :: ms, fuel, rest, hf => by
    cases fuel with
    | zero => exact absurd hf (Nat.not_lt_zero _)
    | succ f =>
      have hvpos := serVal_length_pos v
      have hsf : serFields ((k, v) :: (k2, v2) :: ms)
          = strLit k ++ 58 :: (serVal v ++ (44 :: serFields ((k2, v2) :: ms))) := by
        simp [serFields, serFieldsMore_cons]
      rw [hsf] at hf
      have hfv : (serVal v).length < f := by
        simp [strLit, List.length_append] at hf
        omega
      have hf2 : (serFields ((k2, v2) :: ms)).length + 1 < f := by
        simp [strLit, List.length_append] at hf
        omega
      have harg : serFields ((k, v) :: (k2, v2) :: ms) ++ 125 :: rest
          = 34 :: (escBody k ++ 34 :: (58 :: (serVal v
              ++ (44 :: (serFields ((k2, v2) :: ms) ++ 125 :: rest))))) := by
        rw [hsf]
        simp [strLit]
      rw [harg]
      unfold parseFields
      rw [dropWs_cons_nonws 34 _ (by decide)]
      simp only [scanStr_escBody]
      rw [dropWs_cons_nonws 58 _ (by decide)]
      simp [dropWs, isWsB,
        rtVal v f (44 :: (serFields ((k2, v2) :: ms) ++ 125 :: rest)) hfv
          (by simp [noDigitHead, isDigitB]),
        rtFields k2 v2 ms f rest hf2]
termination_by k v ms fuel rest hf => 1 + sizeOf v + sizeOf ms

end

theorem fromSlice_serVal (v : Jval) : fromSlice (serVal v) = some v := by
  unfold fromSlice
  have h := rtVal v ((serVal v).length + 1) [] (Nat.lt_succ_self _) (by decide)
  rw [List.append_nil] at h
  rw [h]
  simp [dropWs]

/-! ## Lemmas: header framing -/

theorem takeLine_through (pre : List Nat) (post : List Nat) (h : 10 ∉ pre) :
    takeLine (pre ++ 10 :: post) = (pre ++ [10], post) := by
  induction pre with
  | nil => simp [takeLine]
  | cons b t ih =>
    have hb : b ≠ 10 := fun hb => h (hb ▸ List.mem_cons_self ..)
    have ht : 10 ∉ t := fun hm => h (List.mem_cons_of_mem _ hm)
    simp [takeLine, hb, ih ht]

theorem dropWhile_cons_of_neg {p : Nat → Bool} {b : Nat} {l : List Nat} (h : p b = false) :
    List.dropWhile p (b :: l) = b :: l := by
  simp [List.dropWhile, h]

/-- Trimming a CRLF-terminated line whose content starts and ends with
non-whitespace bytes yields exactly the content. -/
theorem trimB_line (a : Nat) (mid : List Nat) (c : Nat)
    (ha : isTrimWs a = false) (hc : isTrimWs c = false) :
    trimB ((a :: (mid ++ [c])) ++ [13, 10]) = a :: (mid ++ [c]) := by
  unfold trimB
  rw [List.cons_append, dropWhile_cons_of_neg ha]
  have hrev : (a :: ((mid ++ [c]) ++ [13, 10])).reverse
      = 10 :: 13 :: (c :: (mid.reverse ++ [a])) := by
    simp
  rw [hrev]
  rw [show List.dropWhile isTrimWs (10 :: 13 :: (c :: (mid.reverse ++ [a])))
      = List.dropWhile isTrimWs (c :: (mid.reverse ++ [a])) from by
    simp [List.dropWhile, (by decide : isTrimWs 10 = true), (by decide : isTrimWs 13 = true)]]
  rw [dropWhile_cons_of_neg hc]
  simp

theorem splitOnceSep_at (pre : List Nat) (h : 58 ∉ pre) (post : List Nat) :
    splitOnceSep (pre ++ 58 :: 32 :: post) = some (pre, post) := by
  induction pre with
  | nil => simp [splitOnceSep]
  | cons b t ih =>
    have hb : b ≠ 58 := fun hb => h (hb ▸ List.mem_cons_self ..)
    have ht : 58 ∉ t := fun hm => h (List.mem_cons_of_mem _ hm)
    rw [List.cons_append]
    unfold splitOnceSep
    rw [if_neg hb, ih ht]

theorem takeExact_append (xs ys : List Nat) : takeExact xs.length (xs ++ ys) = some (xs, ys) := by
  induction xs with
  | nil => simp [takeExact]
  | cons b t ih => simp [takeExact, ih]

theorem digit_not_trimWs (b : Nat) (h : isDigitB b = true) : isTrimWs b = false := by
  simp only [isDigitB, Bool.and_eq_true, decide_eq_true_eq] at h
  simp only [isTrimWs, Bool.or_eq_false_iff, Bool.and_eq_false_iff,
    decide_eq_false_iff_not]
  omega

theorem digit_ne_ten (b : Nat) (h : isDigitB b = true) : b ≠ 10 := by
  simp only [isDigitB, Bool.and_eq_true, decide_eq_true_eq] at h
  omega

/-- One `reader_task` header-loop iteration over a line carrying a
`key: value` pair. -/
theorem readHeaders_step (hs : List (List Nat × List Nat)) (line tail t k v : List Nat)
    (hline : line ≠ []) (h10 : 10 ∉ line)
    (htrim : trimB (line ++ [10]) = t) (hne : t ≠ [])
    (hsplit : splitOnceSep t = some (k, v)) :
    readHeaders hs ((line ++ [10]) ++ tail) = readHeaders (hmInsert hs k v) tail := by
  have he : (line ++ [10]) ++ tail = line ++ 10 :: tail := by simp
  rw [he]
  cases line with
  | nil => exact absurd rfl hline
  | cons a l =>
    have h10l : (10 : Nat) ∉ a :: l := h10
    rw [List.cons_append]
    rw [readHeaders.eq_def]
    have htk : takeLine (a :: (l ++ 10 :: tail)) = (a :: (l ++ [10]), tail) := by
      rw [show a :: (l ++ [10]) = (a :: l) ++ [10] from rfl, ← List.cons_append]
      exact takeLine_through (a :: l) tail h10l
    have htrim2 : trimB (a :: (l ++ [10])) = t := by
      rw [show a :: (l ++ [10]) = (a :: l) ++ [10] from rfl]
      exact htrim
    simp only [htk, htrim2, hsplit, if_neg hne]

/-- The header-loop iteration over the blank `\r\n` line: the loop ends,
handing the rest of the stream to the body read. -/
theorem readHeaders_blank (hs : List (List Nat × List Nat)) (tail : List Nat) :
    readHeaders hs (13 :: 10 :: tail) = some (hs, tail) := by
  unfold readHeaders
  have htk : takeLine (13 :: 10 :: tail) = ([13, 10], tail) :=
    takeLine_through [13] tail (by decide)
  simp only [htk]
  have htrim : trimB [13, 10] = [] := by decide
  simp [htrim]

/-- Decoding the header block of an encoded frame: one `Content-Length`
line and the blank line, leaving the body. -/
theorem readHeaders_frame (hs : List (List Nat × List Nat)) (n : Nat) (body : List Nat) :
    readHeaders hs (contentLengthKey ++ [58, 32] ++ natDigits n ++ [13, 10, 13, 10] ++ body)
      = some (hmInsert hs contentLengthKey (natDigits n), body) := by
  have hnn := natDigits_ne_nil n
  obtain ⟨ds0, dl, hds, hdl⟩ :
      ∃ ds0 dl, natDigits n = ds0 ++ [dl] ∧ isDigitB dl = true := by
    refine ⟨(natDigits n).dropLast, (natDigits n).getLast hnn,
      (List.dropLast_append_getLast hnn).symm,
      natDigits_all_digits n _ (List.getLast_mem hnn)⟩
  have hline10 : (10 : Nat) ∉ contentLengthKey ++ [58, 32] ++ natDigits n ++ [13] := by
    intro hm
    simp only [List.mem_append, List.mem_cons, List.not_mem_nil, or_false] at hm
    rcases hm with ((hk | hx) | hd10) | h13
    · revert hk
      decide
    · simp at hx
    · exact digit_ne_ten 10 (natDigits_all_digits n 10 hd10) rfl
    · simp at h13
  have hlinene : contentLengthKey ++ [58, 32] ++ natDigits n ++ [13] ≠ [] := by
    simp [contentLengthKey]
  have harg : contentLengthKey ++ [58, 32] ++ natDigits n ++ [13, 10, 13, 10] ++ body
      = ((contentLengthKey ++ [58, 32] ++ natDigits n ++ [13]) ++ [10]) ++ (13 :: 10 :: body) := by
    simp
  have hshape : (contentLengthKey ++ [58, 32] ++ natDigits n ++ [13]) ++ [10]
      = (67 :: (([111, 110, 116, 101, 110, 116, 45, 76, 101, 110, 103, 116, 104, 58, 32]
          ++ ds0) ++ [dl])) ++ [13, 10] := by
    rw [hds]
    simp [contentLengthKey]
  have htrim : trimB ((contentLengthKey ++ [58, 32] ++ natDigits n ++ [13]) ++ [10])
      = contentLengthKey ++ [58, 32] ++ natDigits n := by
    rw [hshape, trimB_line 67 _ dl (by decide) (digit_not_trimWs dl hdl), hds]
    simp [contentLengthKey]
  have hne : contentLengthKey ++ [58, 32] ++ natDigits n ≠ [] := by
    simp [contentLengthKey]
  have hsplit : splitOnceSep (contentLengthKey ++ [58, 32] ++ natDigits n)
      = some (contentLengthKey, natDigits n) := by
    rw [show contentLengthKey ++ [58, 32] ++ natDigits n
        = contentLengthKey ++ 58 :: 32 :: natDigits n from by simp]
    exact splitOnceSep_at contentLengthKey (by decide) (natDigits n)
  rw [harg,
    readHeaders_step hs (contentLengthKey ++ [58, 32] ++ natDigits n ++ [13])
      (13 :: 10 :: body) (contentLengthKey ++ [58, 32] ++ natDigits n)
      contentLengthKey (natDigits n) hlinene hline10 htrim hne hsplit,
    readHeaders_blank]

/-! ## C1 -/

/-- C1 — framing round trip: for every JSON value `v`, feeding the bytes
produced by the client's frame encoder (`write_message`: the
`Content-Length: n` header block followed by the compact serialization)
to the reader task's frame decoder yields a decoded value deep-equal to
`v`, consuming exactly the frame and leaving the rest of the stream. -/
theorem framing_roundtrip (v : Jval) (stream : List Nat) :
    readFrame (writeMessage v ++ stream) = some (v, stream) := by
  have harg : writeMessage v ++ stream
      = contentLengthKey ++ [58, 32] ++ natDigits (serVal v).length ++ [13, 10, 13, 10]
        ++ (serVal v ++ stream) := by
    simp [writeMessage]
  unfold readFrame
  rw [harg, readHeaders_frame]
  simp [hmInsert, hmGet, parseUsize_natDigits, takeExact_append, fromSlice_serVal]

/-! ## Lemmas: correlator map -/

theorem mapLookup_registerSlot_self (m : List (Nat × Nat)) (k s : Nat) :
    mapLookup (registerSlot m k s) k = some s := by
  induction m with
  | nil => simp [registerSlot, mapLookup]
  | cons p rest ih =>
    obtain ⟨k0, s0⟩ := p
    by_cases h : k0 = k
    · simp [registerSlot, mapLookup, h]
    · simp [registerSlot, mapLookup, h, ih]

theorem removeSlot_registerSlot (m : List (Nat × Nat)) (k s : Nat)
    (h : mapLookup m k = none) : removeSlot (registerSlot m k s) k = m := by
  induction m with
  | nil => simp [registerSlot, removeSlot]
  | cons p rest ih =>
    obtain ⟨k0, s0⟩ := p
    by_cases hk : k0 = k
    · simp [mapLookup, hk] at h
    · simp only [mapLookup, if_neg hk] at h
      simp [registerSlot, removeSlot, hk, ih h]

theorem removeSlot_absent (m : List (Nat × Nat)) (k : Nat)
    (h : mapLookup m k = none) : removeSlot m k = m := by
  induction m with
  | nil => rfl
  | cons p rest ih =>
    obtain ⟨k0, s0⟩ := p
    by_cases hk : k0 = k
    · simp [mapLookup, hk] at h
    · simp only [mapLookup, if_neg hk] at h
      simp [removeSlot, hk, ih h]

theorem resolveSlot_absent (m : List (Nat × Nat)) (k : Nat) (o : Outcome)
    (h : mapLookup m k = none) : resolveSlot m k o = (m, none) := by
  unfold resolveSlot
  rw [h]

/-! ## C3 -/

/-- C3 — correlator at-most-once delivery and silent miss: after
registering id `k`, the first resolve removes the entry and delivers the
outcome to that slot; the map is back to its pre-registration state, so a
second resolve of `k` delivers nothing, changes nothing and raises no
error; and resolving an id that was never registered is a no-op on the
map with no delivery. -/
theorem correlator_exclusive_and_silent (m : List (Nat × Nat)) (k s : Nat)
    (o o2 : Outcome) (hfresh : mapLookup m k = none) :
    (resolveSlot (registerSlot m k s) k o).2 = some (s, o) ∧
    (resolveSlot (registerSlot m k s) k o).1 = m ∧
    resolveSlot (resolveSlot (registerSlot m k s) k o).1 k o2 = (m, none) ∧
    resolveSlot m k o2 = (m, none) := by
  have h1 : resolveSlot (registerSlot m k s) k o
      = (removeSlot (registerSlot m k s) k, some (s, o)) := by
    unfold resolveSlot
    rw [mapLookup_registerSlot_self]
  have h2 := removeSlot_registerSlot m k s hfresh
  refine ⟨by rw [h1], by rw [h1, h2], ?_, resolveSlot_absent m k o2 hfresh⟩
  rw [h1, h2]
  exact resolveSlot_absent m k o2 hfresh

/-- Witness for C3 at a concrete map and id. -/
theorem correlator_exclusive_and_silent_witness :
    mapLookup [(2, 9)] 1 = none ∧
    ((resolveSlot (registerSlot [(2, 9)] 1 5) 1 (.ok .jnull)).2 = some (5, .ok .jnull) ∧
     (resolveSlot (registerSlot [(2, 9)] 1 5) 1 (.ok .jnull)).1 = [(2, 9)] ∧
     resolveSlot (resolveSlot (registerSlot [(2, 9)] 1 5) 1 (.ok .jnull)).1 1
       (.error .jnull) = ([(2, 9)], none) ∧
     resolveSlot [(2, 9)] 1 (.error .jnull) = ([(2, 9)], none)) :=
  ⟨rfl, correlator_exclusive_and_silent [(2, 9)] 1 5 (.ok .jnull) (.error .jnull) rfl⟩

/-! ## C2 -/

/-- C2 counterexample: a server-initiated request carrying an `id` but
neither `result` nor `error` does not leave the correlator map untouched —
the reader removes (and thereby drops) the pending slot for that id
without delivering anything. -/
theorem reader_dispatch_counterexample :
    (jget (.jobj [(strB "id", .jnum 1), (strB "method", .jstr (strB "window/test"))])
      (strB "result") = none) ∧
    (jget (.jobj [(strB "id", .jnum 1), (strB "method", .jstr (strB "window/test"))])
      (strB "error") = none) ∧
    ((jget (.jobj [(strB "id", .jnum 1), (strB "method", .jstr (strB "window/test"))])
      (strB "id")).bind asU64 = some 1) ∧
    (dispatchMessage (.jobj [(strB "id", .jnum 1), (strB "method", .jstr (strB "window/test"))])
      [(1, 7)]).1 = [] ∧
    (dispatchMessage (.jobj [(strB "id", .jnum 1), (strB "method", .jstr (strB "window/test"))])
      [(1, 7)]).2 = none ∧
    ([(1, 7)] : List (Nat × Nat)) ≠ [] :=
  ⟨rfl, rfl, rfl, rfl, rfl, by decide⟩

/-- C2 (amended) — reader-task dispatch: a decoded message with no `u64`
`id` leaves the map untouched and delivers nothing; a message with an id
that has no registered slot also changes nothing; but when a slot is
registered for the id, the entry is removed in every case, and an outcome
is delivered only if the message carries `error` (checked first) or
`result` — with neither member, the slot is removed and dropped without
any delivery. -/
theorem reader_dispatch_amended (j : Jval) (m : List (Nat × Nat)) :
    ((jget j (strB "id")).bind asU64 = none → dispatchMessage j m = (m, none)) ∧
    (∀ i, (jget j (strB "id")).bind asU64 = some i →
      (mapLookup m i = none → dispatchMessage j m = (m, none)) ∧
      (∀ s, mapLookup m i = some s →
        (dispatchMessage j m).1 = removeSlot m i ∧
        (∀ e, jget j (strB "error") = some e →
          (dispatchMessage j m).2 = some (s, .error e)) ∧
        (jget j (strB "error") = none → ∀ r, jget j (strB "result") = some r →
          (dispatchMessage j m).2 = some (s, .ok r)) ∧
        (jget j (strB "error") = none → jget j (strB "result") = none →
          (dispatchMessage j m).2 = none))) := by
  constructor
  · intro h
    unfold dispatchMessage
    rw [h]
  · intro i hi
    constructor
    · intro hm
      unfold dispatchMessage
      rw [hi]
      simp only [hm]
    · intro s hs
      refine ⟨?_, ?_, ?_, ?_⟩
      · unfold dispatchMessage
        rw [hi]
        simp only [hs]
        rcases he : jget j (strB "error") with _ | e
        · rcases hr : jget j (strB "result") with _ | r <;> simp [he, hr]
        · simp [he]
      · intro e he
        unfold dispatchMessage
        rw [hi]
        simp only [hs, he]
      · intro he r hr
        unfold dispatchMessage
        rw [hi]
        simp only [hs, he, hr]
      · intro he hr
        unfold dispatchMessage
        rw [hi]
        simp only [hs, he, hr]

/-- Witness for C2 (amended): a well-formed response for a registered id
is delivered as a success to the registered slot. -/
theorem reader_dispatch_amended_witness :
    ((jget (.jobj [(strB "id", .jnum 1), (strB "result", .jnull)]) (strB "id")).bind asU64
      = some 1) ∧
    mapLookup [(1, 7)] 1 = some 7 ∧
    jget (.jobj [(strB "id", .jnum 1), (strB "result", .jnull)]) (strB "error") = none ∧
    jget (.jobj [(strB "id", .jnum 1), (strB "result", .jnull)]) (strB "result") = some .jnull ∧
    (dispatchMessage (.jobj [(strB "id", .jnum 1), (strB "result", .jnull)]) [(1, 7)]).2
      = some (7, .ok .jnull) := by
  refine ⟨rfl, rfl, rfl, rfl, ?_⟩
  exact (((reader_dispatch_amended (.jobj [(strB "id", .jnum 1), (strB "result", .jnull)])
    [(1, 7)]).2 1 rfl).2 7 rfl).2.2.1 rfl .jnull rfl

/-! ## C5 -/

/-- C5 — not-initialized fail-fast: for any method other than the
`initialize` handshake, `send_request` on a client that is not
initialized returns the state error immediately, with the client state
untouched — no request id allocated, no correlator slot registered,
nothing written to the backend's stdin. -/
theorem sendRequest_not_initialized (st : ClientState) (method : String) (params : Jval)
    (await : AwaitOutcome) (hinit : st.initialized = false) (hm : method ≠ "initialize") :
    sendRequest st method params await = (.error .notInitialized, st) := by
  unfold sendRequest
  rw [if_pos ⟨hinit, hm⟩]

/-- Witness for C5: a hover request on a fresh client fails fast. -/
theorem sendRequest_not_initialized_witness :
    newClient.initialized = false ∧
    ("textDocument/hover" : String) ≠ "initialize" ∧
    sendRequest newClient "textDocument/hover" .jnull .timedOut
      = (.error .notInitialized, newClient) :=
  ⟨rfl, by decide,
    sendRequest_not_initialized newClient "textDocument/hover" .jnull .timedOut rfl (by decide)⟩

/-! ## C4 -/

/-- C4 — timeout cleanup: when the await on a request's completion slot
times out, `send_request` removes that request's correlator entry (the
pending map is back to its pre-call state) and returns the timeout error
to this caller only; a response for that id arriving later finds no slot
and is silently dropped by the reader task, and the entry of every other
in-flight request is untouched. -/
theorem sendRequest_timeout (st : ClientState) (method : String) (params : Jval)
    (hinit : st.initialized = true) (hstdin : st.stdinOpen = true)
    (hfresh : mapLookup st.pending st.nextId = none) :
    (sendRequest st method params .timedOut).1 = .error .timeout ∧
    (sendRequest st method params .timedOut).2.pending = st.pending ∧
    (∀ resp : Jval, (jget resp (strB "id")).bind asU64 = some st.nextId →
      dispatchMessage resp (sendRequest st method params .timedOut).2.pending
        = ((sendRequest st method params .timedOut).2.pending, none)) ∧
    (∀ i, i ≠ st.nextId →
      mapLookup (sendRequest st method params .timedOut).2.pending i
        = mapLookup st.pending i) := by
  have hsr : sendRequest st method params .timedOut
      = (.error .timeout,
         { st with nextId := st.nextId + 1,
                   pending := st.pending,
                   written := st.written
                     ++ [writeMessage (mkRequest st.nextId method params)] }) := by
    unfold sendRequest writeMessageSt
    rw [if_neg (by simp [hinit])]
    simp only [hstdin, if_pos]
    simp [removeSlot_registerSlot st.pending st.nextId st.nextId hfresh]
  refine ⟨by rw [hsr], by rw [hsr], ?_, ?_⟩
  · intro resp hresp
    rw [hsr]
    unfold dispatchMessage
    rw [hresp]
    simp only [hfresh]
  · intro i hi
    rw [hsr]

/-- Witness for C4 at a concrete client state with another in-flight
request. -/
theorem sendRequest_timeout_witness :
    ({ processLive := true, stdinOpen := true, initialized := true,
       nextId := 5, pending := [(2, 2)], written := [] } : ClientState).initialized = true ∧
    mapLookup [(2, 2)] 5 = none ∧
    (sendRequest
      { processLive := true, stdinOpen := true, initialized := true,
        nextId := 5, pending := [(2, 2)], written := [] }
      "textDocument/hover" .jnull .timedOut).1 = .error .timeout ∧
    (sendRequest
      { processLive := true, stdinOpen := true, initialized := true,
        nextId := 5, pending := [(2, 2)], written := [] }
      "textDocument/hover" .jnull .timedOut).2.pending = [(2, 2)] := by
  refine ⟨rfl, rfl, ?_, ?_⟩
  · exact (sendRequest_timeout
      { processLive := true, stdinOpen := true, initialized := true,
        nextId := 5, pending := [(2, 2)], written := [] }
      "textDocument/hover" .jnull rfl rfl rfl).1
  · exact (sendRequest_timeout
      { processLive := true, stdinOpen := true, initialized := true,
        nextId := 5, pending := [(2, 2)], written := [] }
      "textDocument/hover" .jnull rfl rfl rfl).2.1

/-! ## C6 -/

/-- C6 counterexample: when the initialize handshake times out on a
freshly constructed client, the failure is propagated, but the client is
left holding a live backend process (no teardown, no transition to a
stopped state) while not initialized — contrary to the claimed
`Stopped`-with-teardown behaviour. -/
theorem initialize_failure_counterexample :
    (initializeClient newClient (.jobj []) .timedOut).1 = .error .timeout ∧
    (initializeClient newClient (.jobj []) .timedOut).2.processLive = true ∧
    (initializeClient newClient (.jobj []) .timedOut).2.initialized = false :=
  ⟨rfl, rfl, rfl⟩

/-- C6 (amended) — initialize-failure behaviour: if the handshake request
fails (timeout, closed channel, or an error response), `initialize`
propagates the failure to the caller and leaves `initialized` false, but
it does not tear the backend process down at that point: the process and
its stdin handle remain held by the client (teardown happens only through
`shutdown` or the kill-on-drop at destruction). -/
theorem initialize_failure_amended (st : ClientState) (p : Jval) (aw : AwaitOutcome)
    (hinit : st.initialized = false)
    (hfail : aw = .timedOut ∨ aw = .closed ∨ ∃ e, aw = .delivered (.error e)) :
    (∃ err, (initializeClient st p aw).1 = .error err) ∧
    (initializeClient st p aw).2.initialized = false ∧
    (initializeClient st p aw).2.processLive = true ∧
    (initializeClient st p aw).2.stdinOpen = true := by
  set q := sendRequest (startServer st) "initialize" p aw with hq
  obtain ⟨err, herr⟩ : ∃ err, q.1 = .error err := by
    rw [hq]
    unfold sendRequest writeMessageSt startServer
    rw [if_neg (fun h => h.2 rfl)]
    rcases hfail with h | h | ⟨e, h⟩ <;> subst h <;> simp
  have hst : q.2.initialized = false ∧ q.2.processLive = true ∧ q.2.stdinOpen = true := by
    rw [hq]
    unfold sendRequest writeMessageSt startServer
    rw [if_neg (fun h => h.2 rfl)]
    rcases aw with o | _ | _
    · rcases o with v | e <;> simp [hinit]
    · simp [hinit]
    · simp [hinit]
  have hqpair : q = (Except.error err, q.2) := by
    rw [← herr]
  have hred : initializeClient st p aw = (.error err, q.2) := by
    unfold initializeClient
    simp only [← hq]
    rw [hqpair]
  rw [hred]
  exact ⟨⟨err, rfl⟩, hst.1, hst.2.1, hst.2.2⟩

/-- Witness for C6 (amended) at a fresh client and a timed-out handshake. -/
theorem initialize_failure_amended_witness :
    newClient.initialized = false ∧
    (∃ err, (initializeClient newClient (.jobj []) .timedOut).1 = .error err) ∧
    (initializeClient newClient (.jobj []) .timedOut).2.initialized = false ∧
    (initializeClient newClient (.jobj []) .timedOut).2.processLive = true ∧
    (initializeClient newClient (.jobj []) .timedOut).2.stdinOpen = true :=
  ⟨rfl, initialize_failure_amended newClient (.jobj []) .timedOut rfl (Or.inl rfl)⟩

/-! ## C7 -/

/-- C7 — hover shape normalization: the facade flattens all four
`contents` shapes — a plain string yields that string, a markup object's
`value` yields that string, an array of marked strings yields the entries
joined with a blank line (when the join is nonempty), and an
unrecognizable object shape yields nothing. -/
theorem hover_shape_normalization :
    (∀ s : List Nat, hoverExtract (.jobj [(strB "contents", .jstr s)]) = some s) ∧
    (∀ s : List Nat,
      hoverExtract (.jobj [(strB "contents", .jobj [(strB "value", .jstr s)])]) = some s) ∧
    (∀ ss : List (List Nat), joinBlank ss ≠ [] →
      hoverExtract (.jobj [(strB "contents",
        .jarr (ss.map (fun s => .jobj [(strB "value", .jstr s)])))]) = some (joinBlank ss)) ∧
    hoverExtract (.jobj [(strB "contents", .jobj [])]) = none := by
  have hitems : ∀ ss : List (List Nat),
      (ss.map (fun s => Jval.jobj [(strB "value", .jstr s)])).filterMap hoverItemText = ss := by
    intro ss
    induction ss with
    | nil => rfl
    | cons a t ih => simp [hoverItemText, asStr, asObject, lookupField, ih]
  refine ⟨?_, ?_, ?_, ?_⟩
  · intro s
    simp [hoverExtract, jget, lookupField, asStr, asObject]
  · intro s
    simp [hoverExtract, jget, lookupField, asStr, asObject]
  · intro ss hne
    simp [hoverExtract, jget, lookupField, asStr, asObject, asArray, hitems, hne]
  · simp [hoverExtract, jget, lookupField, asStr, asObject]

/-- Witness for C7's array case at the spec's example text. -/
theorem hover_shape_normalization_witness :
    joinBlank [strB "fn foo()"] ≠ [] ∧
    hoverExtract (.jobj [(strB "contents",
      .jarr [.jobj [(strB "value", .jstr (strB "fn foo()"))]])])
      = some (joinBlank [strB "fn foo()"]) := by
  refine ⟨by decide, ?_⟩
  have h := hover_shape_normalization.2.2.1 [strB "fn foo()"] (by decide)
  simpa using h

/-! ## C8 -/

/-- C8 counterexample: with the backend toggle enabled and no client
present, `find_references` performs no initialization attempt — it leaves
the facade without a client and returns the empty fallback — contrary to
the claim that every backend-requiring operation lazily connects. -/
theorem lazy_connect_counterexample :
    (FacadeState.mk true false).useLsp = true ∧
    (FacadeState.mk true false).clientPresent = false ∧
    findReferencesOp (FacadeState.mk true false) (.ok (.jarr []))
      = (FacadeState.mk true false, false, .ok []) :=
  ⟨rfl, rfl, rfl⟩

/-- C8 (amended) — lazy connect: only `hover` and `completions` attempt
to create and initialize a client when none exists under the enabled
toggle (installing the attempt's outcome, and degrading to `None` / empty
when the attempt fails); `find_references`, `rename`, `signature_help`
and `find_implementations` never attempt initialization and leave the
facade state unchanged. -/
theorem lazy_connect_amended (st : FacadeState) (initOk : Bool)
    (cr : Except (List Nat) Jval) :
    (st.useLsp = true → st.clientPresent = false →
      (hoverOp st initOk cr).2.1 = true ∧
      (hoverOp st initOk cr).1.clientPresent = initOk ∧
      (completionsOp st initOk cr).2.1 = true ∧
      (completionsOp st initOk cr).1.clientPresent = initOk ∧
      (initOk = false → (hoverOp st initOk cr).2.2 = .ok none ∧
        (completionsOp st initOk cr).2.2 = .ok [])) ∧
    ((findReferencesOp st cr).2.1 = false ∧ (findReferencesOp st cr).1 = st ∧
     (renameOp st cr).2.1 = false ∧ (renameOp st cr).1 = st ∧
     (signatureHelpOp st cr).2.1 = false ∧ (signatureHelpOp st cr).1 = st ∧
     (findImplementationsOp st cr).2.1 = false ∧ (findImplementationsOp st cr).1 = st) := by
  obtain ⟨u, c⟩ := st
  constructor
  · intro hu hc
    simp only at hu hc
    subst hu
    subst hc
    cases initOk <;> rcases cr with er | r <;>
      simp [hoverOp, completionsOp, lazyConnect]
  · cases c <;> rcases cr with er | r <;>
      simp [findReferencesOp, renameOp, signatureHelpOp, findImplementationsOp]

/-- Witness for C8 (amended) at a concrete enabled, clientless state with
a failing initialization attempt. -/
theorem lazy_connect_amended_witness :
    (FacadeState.mk true false).useLsp = true ∧
    (FacadeState.mk true false).clientPresent = false ∧
    (false : Bool) = false ∧
    (hoverOp (FacadeState.mk true false) false (.ok .jnull)).2.1 = true ∧
    (hoverOp (FacadeState.mk true false) false (.ok .jnull)).2.2 = .ok none := by
  refine ⟨rfl, rfl, rfl, ?_, ?_⟩
  · exact ((lazy_connect_amended (FacadeState.mk true false) false (.ok .jnull)).1
      rfl rfl).1
  · exact (((lazy_connect_amended (FacadeState.mk true false) false (.ok .jnull)).1
      rfl rfl).2.2.2.2 rfl).1

/-! ## C9 -/

/-- C9 — graceful degradation: every facade operation returns a normal
`Ok` value for any backend outcome, and on a backend error specifically:
`None` for hover, the empty list for completions / find_references /
find_implementations, the empty object for signature_help, and an
error-payload object for rename; no operation ever surfaces a hard
error. -/
theorem facade_graceful_degradation (st : FacadeState) (initOk : Bool) (e : List Nat)
    (cr : Except (List Nat) Jval) :
    (∃ v, (hoverOp st initOk cr).2.2 = .ok v) ∧
    (∃ v, (completionsOp st initOk cr).2.2 = .ok v) ∧
    (∃ v, (findReferencesOp st cr).2.2 = .ok v) ∧
    (∃ v, (renameOp st cr).2.2 = .ok v) ∧
    (∃ v, (signatureHelpOp st cr).2.2 = .ok v) ∧
    (∃ v, (findImplementationsOp st cr).2.2 = .ok v) ∧
    (hoverOp st initOk (.error e)).2.2 = .ok none ∧
    (completionsOp st initOk (.error e)).2.2 = .ok [] ∧
    (findReferencesOp st (.error e)).2.2 = .ok [] ∧
    (signatureHelpOp st (.error e)).2.2 = .ok (.jobj []) ∧
    (findImplementationsOp st (.error e)).2.2 = .ok [] ∧
    (renameOp st (.error e)).2.2 = .ok (.jobj [(strB "error", .jstr
      (if st.clientPresent then strB "Rename failed: " ++ e
       else strB "LSP not available"))]) := by
  obtain ⟨u, c⟩ := st
  cases u <;> cases c <;> cases initOk <;> rcases cr with er | r <;>
    simp [hoverOp, completionsOp, findReferencesOp, renameOp, signatureHelpOp,
      findImplementationsOp, lazyConnect]

/-! ## C10 -/

/-- C10 — coordinate-translation precondition: the facade's protocol
position is the checked 32-bit computation `(line - 1, column - 1)`; it
is defined exactly when `line ≥ 1` and `column ≥ 1`, and an input with
`line = 0` or `column = 0` underflows (a panic in checked builds,
modelled as `none`) instead of producing a protocol position. -/
theorem coordinate_translation (line column : Nat) :
    (1 ≤ line → 1 ≤ column → lspPosition line column = some (line - 1, column - 1)) ∧
    (line = 0 ∨ column = 0 → lspPosition line column = none) := by
  constructor
  · intro h1 h2
    simp [lspPosition, h1, h2]
  · intro h
    rcases h with h | h <;> subst h <;> simp [lspPosition]

/-- Witness for C10 at the spec's example inputs and at a zero input. -/
theorem coordinate_translation_witness :
    (1 ≤ 10 ∧ 1 ≤ 5 ∧ lspPosition 10 5 = some (9, 4)) ∧
    lspPosition 1 1 = some (0, 0) ∧
    ((0 = 0 ∨ 3 = 0) ∧ lspPosition 0 3 = none) := by
  refine ⟨⟨by decide, by decide, ?_⟩, ?_, Or.inl rfl, ?_⟩
  · exact (coordinate_translation 10 5).1 (by decide) (by decide)
  · exact (coordinate_translation 1 1).1 (by decide) (by decide)
  · exact (coordinate_translation 0 3).2 (Or.inl rfl)

end Mcp
